import Mathlib

/-!
Verification of the package-analysis core: the JavaScript symbol-extraction
adapter (`parseJS` and its helpers, from the `parsing` package) and the phased
dynamic-analysis orchestrator (`RunDynamicAnalysis`, from the `worker` package).

The Go code is shallowly embedded: external collaborators (the parser
subprocess, JSON decoding, the identifier-classification table, the sandbox
runner) are passed as explicit parameters or modelled as inductive data, and
a Go panic (unchecked type assertion) is modelled by `Option.none`.
-/

namespace PackageAnalysis

namespace Parsing

/-- Decoded JSON values as Go's `encoding/json` produces them into an `any`:
objects become `map[string]interface` values, arrays `[]interface` values,
numbers `float64`, strings `string`, booleans `bool` and `null` becomes `nil`.
The float64 payload is kept opaque (its printed token) since no code under
analysis inspects it. -/
inductive GoValue where
  | vnull : GoValue
  | vbool (b : Bool) : GoValue
  | vnum (tok : String) : GoValue
  | vstr (s : String) : GoValue
  | varr (elems : List GoValue) : GoValue
  | vobj (fields : List (String × GoValue)) : GoValue

/-- The string Go's `fmt.Sprintf("%T", v)` produces for each decoded JSON
value held in an `any` (this is what `parseJS` stores in `GoType`). -/
def goTypeOf : GoValue → String
  | GoValue.vnull => "<nil>"
  | GoValue.vbool _ => "bool"
  | GoValue.vnum _ => "float64"
  | GoValue.vstr _ => "string"
  | GoValue.varr _ => "[]interface \x7b\x7d"
  | GoValue.vobj _ => "map[string]interface \x7b\x7d"

/-- Go map lookup on the decoded `extra` object, `element.Extra[k]`:
`none` models the `nil` returned for a missing key. -/
def mapLookup (m : List (String × GoValue)) (k : String) : Option GoValue :=
  match m with
  | [] => none
  | (k', v) :: rest => if k' = k then some v else mapLookup rest k

/-- The Go comparison `element.Extra["array"] == true`: an interface value
compares equal to the untyped constant `true` exactly when it holds the
boolean `true`. A missing key yields `nil`, which is not `true`. -/
def isLiterallyTrue : Option GoValue → Bool
  | some (GoValue.vbool true) => true
  | _ => false

/-- Modelled from the spec: the `token.IdentifierType` enumeration (declared in
`internal/staticanalysis/token`, not under `src/`): a fixed enumeration of
recognized identifier roles plus the `Other` and `Unknown` values that
`parseJS` filters out. -/
inductive IdentifierType where
  | function : IdentifierType
  | classDecl : IdentifierType
  | parameter : IdentifierType
  | member : IdentifierType
  | property : IdentifierType
  | variableDecl : IdentifierType
  | statementLabel : IdentifierType
  | other : IdentifierType
  | unknown : IdentifierType
deriving DecidableEq

/-- Modelled from the spec: the `SymbolType` tag constants of the wire schema
(declared outside `src/`); `parseJS` switches on them. -/
def Identifier : String := "Identifier"

/-- Wire tag for literal records. -/
def Literal : String := "Literal"

/-- Wire tag for comment records. -/
def Comment : String := "Comment"

/-- Wire tag for informational records (ignored by `parseJS`). -/
def Info : String := "Info"

/-- Wire tag for error records (ignored by `parseJS`); named `Error` in Go. -/
def ErrorKind : String := "Error"

/-- `parserOutputElement`: one element of the JS parser's JSON output, after
`encoding/json` decoding (`Data` is an `any`, `Extra` a `map[string]any`). -/
structure ParserOutputElement where
  symbolType : String
  symbolSubtype : String
  data : GoValue
  pos : Int × Int
  extra : List (String × GoValue)

/-- `parsedIdentifier`: `Type`, `Name` and `Pos` fields (renamed `typ`,
`name`, `pos` since `Type` is a Lean keyword). -/
structure ParsedIdentifier where
  typ : IdentifierType
  name : String
  pos : Int × Int

/-- The `Value` field of `parsedLiteral[any]`: either the decoded JSON value
as it arrived, or the `big.Int` that replaced a numeric-as-string payload. -/
inductive LiteralValue where
  | raw (v : GoValue) : LiteralValue
  | bigInt (n : Int) : LiteralValue

/-- `parsedLiteral[any]` with fields `Type`, `GoType`, `Value`, `RawValue`,
`InArray`, `Pos`. -/
structure ParsedLiteral where
  typ : String
  goType : String
  value : LiteralValue
  rawValue : String
  inArray : Bool
  pos : Int × Int

/-- `parsedComment` with fields `Type`, `Data`, `Pos`. -/
structure ParsedComment where
  typ : String
  data : String
  pos : Int × Int

/-- `parserOutput`: the extraction result (`ValidInput`, `Identifiers`,
`Literals`, `Comments`). -/
structure ParserOutput where
  validInput : Bool
  identifiers : List ParsedIdentifier
  literals : List ParsedLiteral
  comments : List ParsedComment

/-- The zero value of `parserOutput` (Go named-return `result`). -/
def emptyOutput : ParserOutput :=
  { validInput := false, identifiers := [], literals := [], comments := [] }

/-- Modelled from the spec: `parsing.InvalidInput` (declared outside `src/`)
is the extraction result flagged invalid with no decoded content. -/
def InvalidInput : ParserOutput := emptyOutput

/-- `syntaxErrorExitCode`: sentinel exit code 33 of the external JS parser. -/
def syntaxErrorExitCode : Int := 33

/-- Hex/decimal digit value accepted by `math/big`'s scanner (digits, then
lowercase and uppercase letters valued 10 upward). -/
def digitVal (c : Char) : Option Nat :=
  if 48 ≤ c.toNat ∧ c.toNat ≤ 57 then some (c.toNat - 48)
  else if 97 ≤ c.toNat ∧ c.toNat ≤ 122 then some (c.toNat - 97 + 10)
  else if 65 ≤ c.toNat ∧ c.toNat ≤ 90 then some (c.toNat - 65 + 10)
  else none

/-- Continuation of a digit run in `big.Int.SetString(s, 0)`: each step is a
digit or an underscore followed by a digit (underscores only between
successive digits; no trailing or doubled underscore). -/
def goDigitsAux (base : Nat) : Nat → List Char → Option Nat
  | acc, [] => some acc
  | acc, c :: rest =>
    if c = '_' then
      match rest with
      | [] => none
      | c2 :: rest2 =>
        match digitVal c2 with
        | some d => if d < base then goDigitsAux base (acc * base + d) rest2 else none
        | none => none
    else
      match digitVal c with
      | some d => if d < base then goDigitsAux base (acc * base + d) rest else none
      | none => none

/-- Start of a digit run in `big.Int.SetString(s, 0)`: at least one digit is
required; a single leading underscore is allowed only directly after a base
prefix. -/
def goDigitStart (base : Nat) (afterPrefix : Bool) (cs : List Char) : Option Nat :=
  match cs with
  | [] => none
  | c :: rest =>
    if c = '_' then
      if afterPrefix then
        match rest with
        | [] => none
        | c2 :: rest2 =>
          match digitVal c2 with
          | some d => if d < base then goDigitsAux base d rest2 else none
          | none => none
      else none
    else
      match digitVal c with
      | some d => if d < base then goDigitsAux base d rest else none
      | none => none

/-- Unsigned part of `big.Int.SetString(s, 0)`: per the `math/big`
documentation, a `0b`/`0B` prefix selects base 2, `0`, `0o`/`0O` base 8,
`0x`/`0X` base 16, otherwise base 10; a lone `0` is the number zero. -/
def goUnsigned (cs : List Char) : Option Nat :=
  match cs with
  | [] => none
  | c :: rest =>
    if c = '0' then
      match rest with
      | [] => some 0
      | c2 :: rest2 =>
        if c2 = 'b' ∨ c2 = 'B' then goDigitStart 2 true rest2
        else if c2 = 'o' ∨ c2 = 'O' then goDigitStart 8 true rest2
        else if c2 = 'x' ∨ c2 = 'X' then goDigitStart 16 true rest2
        else goDigitStart 8 true (c2 :: rest2)
    else goDigitStart 10 false (c :: rest)

/-- `bigInt.SetString(intAsString, 0)` from `math/big` (an external library
function, modelled from its documented base-0 behavior): optional sign, then
a prefix-determined base; the entire string must be consumed; `none` models
the `valid == false` outcome. -/
def bigIntSetString (s : String) : Option Int :=
  match s.data with
  | [] => none
  | c :: rest =>
    if c = '+' then (goUnsigned rest).map (fun n => (n : Int))
    else if c = '-' then (goUnsigned rest).map (fun n => -(n : Int))
    else (goUnsigned (c :: rest)).map (fun n => (n : Int))

/-- Base-10 value of a digit string (for relating `bigIntSetString` to plain
decimal parsing). -/
def decimalValue (s : String) : Nat :=
  s.data.foldl (fun acc c => acc * 10 + (c.toNat - 48)) 0

/-- The `case Literal` body of `parseJS`: builds the `parsedLiteral` and then
applies the numeric-as-string fixup. The `RawValue: element.Extra["raw"].(string)`
unchecked type assertion panics (`none`) when the key is missing or not a
string. -/
def numericFixup (lit : ParsedLiteral) : ParsedLiteral :=
  if lit.typ = "Numeric" ∧ lit.goType = "string" then
    match lit.value with
    | LiteralValue.raw (GoValue.vstr s) =>
      match bigIntSetString s with
      | some n => { lit with value := LiteralValue.bigInt n, goType := "big.Int" }
      | none => lit
    | _ => lit
  else lit

/-- Literal-record conversion inside `parseJS`'s loop: struct construction
(including the panicking `Extra["raw"].(string)` assertion, modelled as
`none`) followed by the BigInteger post-processing rule. -/
def convertLiteral (e : ParserOutputElement) : Option ParsedLiteral :=
  match mapLookup e.extra "raw" with
  | some (GoValue.vstr rawText) =>
    some (numericFixup
      { typ := e.symbolSubtype
        goType := goTypeOf e.data
        value := LiteralValue.raw e.data
        rawValue := rawText
        inArray := isLiterallyTrue (mapLookup e.extra "array")
        pos := e.pos })
  | _ => none

/-- One iteration of `parseJS`'s conversion loop (the `switch element.SymbolType`).
`check` is `token.CheckIdentifierType` (external classification table, passed
as a parameter). `none` models a panic from an unchecked type assertion
(`element.Data.(string)` in the Identifier and Comment branches, and the
`Extra["raw"]` assertion in the Literal branch). `Info` and `Error` records
are ignored; an unrecognized kind is logged and ignored. -/
def processElement (check : String → IdentifierType) (acc : ParserOutput)
    (e : ParserOutputElement) : Option ParserOutput :=
  if e.symbolType = Identifier then
    if check e.symbolSubtype = IdentifierType.other ∨
        check e.symbolSubtype = IdentifierType.unknown then
      some acc
    else
      match e.data with
      | GoValue.vstr nm =>
        some { acc with identifiers := acc.identifiers ++
          [{ typ := check e.symbolSubtype, name := nm, pos := e.pos }] }
      | _ => none
  else if e.symbolType = Literal then
    (convertLiteral e).map fun lit => { acc with literals := acc.literals ++ [lit] }
  else if e.symbolType = Comment then
    match e.data with
    | GoValue.vstr text =>
      some { acc with comments := acc.comments ++
        [{ typ := e.symbolSubtype, data := text, pos := e.pos }] }
    | _ => none
  else if e.symbolType = Info ∨ e.symbolType = ErrorKind then
    some acc
  else
    some acc

/-- The whole conversion loop of `parseJS` over the decoded `storage` slice;
`none` propagates a panic from any record. -/
def convertStorage (check : String → IdentifierType) :
    List ParserOutputElement → ParserOutput → Option ParserOutput
  | [], acc => some acc
  | e :: rest, acc =>
    match processElement check acc e with
    | some acc' => convertStorage check rest acc'
    | none => none

/-- The Go `error` values `parseJS` can return: an `*exec.ExitError` carrying
the subprocess's captured standard error, or any other error (pipe failures,
JSON decode errors, ...), kept as its message. -/
inductive GoErr where
  | exitError (code : Int) (stderr : String) : GoErr
  | other (msg : String) : GoErr

/-- Outcome of the external `node` parser subprocess as observed through
`cmd.Output()`: clean exit with standard output, exit with a non-zero code
(carrying whatever partial standard output and standard error it produced),
or a non-exit failure (pipe creation/write/close error, spawn failure). -/
inductive ProcessResult where
  | success (stdout : String) : ProcessResult
  | exitError (code : Int) (stdout stderr : String) : ProcessResult
  | otherFailure (msg : String) : ProcessResult

/-- `runParser`: returns the subprocess's standard output on success and
`("", err)` on any error (partial standard output is discarded; an
`*exec.ExitError` keeps its captured stderr inside the error). -/
def runParser : ProcessResult → String × Option GoErr
  | ProcessResult.success out => (out, none)
  | ProcessResult.exitError code _ stderr => ("", some (GoErr.exitError code stderr))
  | ProcessResult.otherFailure msg => ("", some (GoErr.other msg))

/-- `parseJS`: interprets the parser subprocess outcome (`proc`, the result of
`runParser`), decodes its JSON output (`decode` stands for the
`encoding/json` decoder) and converts the records. The returned triple is Go's
`(result parserOutput, parserOutput string, err error)`; the outer `Option`
models a panic in the conversion loop (`none` = the process aborts). -/
def parseJS (decode : String → Except String (List ParserOutputElement))
    (check : String → IdentifierType) (proc : ProcessResult) :
    Option (ParserOutput × String × Option GoErr) :=
  match runParser proc with
  | (_, some err) =>
    match err with
    | GoErr.exitError code stderr =>
      if code = syntaxErrorExitCode then some (InvalidInput, "", none)
      else some (emptyOutput, stderr, some (GoErr.exitError code stderr))
    | GoErr.other msg => some (emptyOutput, "", some (GoErr.other msg))
  | (out, none) =>
    match decode out with
    | Except.error e => some (emptyOutput, out, some (GoErr.other e))
    | Except.ok storage =>
      (convertStorage check storage { emptyOutput with validInput := true }).map
        (fun result => (result, out, none))

/-- Sample classification table for instantiating theorems: classifies the
subtype "Variable" as a recognized role and everything else as unknown. -/
def check0 : String → IdentifierType :=
  fun s => if s = "Variable" then IdentifierType.variableDecl else IdentifierType.unknown

/-- An identifier record whose payload is not text (a contract violation by
the external tool). -/
def badIdentElem : ParserOutputElement :=
  { symbolType := Identifier, symbolSubtype := "Variable", data := GoValue.vnum "5"
    pos := (1, 1), extra := [] }

/-- A well-shaped identifier record. -/
def goodIdentElem : ParserOutputElement :=
  { symbolType := Identifier, symbolSubtype := "Variable", data := GoValue.vstr "x"
    pos := (1, 1), extra := [] }

/-- A literal record whose extra-attributes map lacks the "raw" key. -/
def badLitElem : ParserOutputElement :=
  { symbolType := Literal, symbolSubtype := "String", data := GoValue.vstr "abc"
    pos := (2, 3), extra := [] }

/-- A literal record that appeared inside an array literal. -/
def arrLitElem : ParserOutputElement :=
  { symbolType := Literal, symbolSubtype := "String", data := GoValue.vstr "a"
    pos := (0, 0), extra := [("raw", GoValue.vstr "a"), ("array", GoValue.vbool true)] }

/-- The parsed literal produced from `arrLitElem`. -/
def arrLit : ParsedLiteral :=
  { typ := "String", goType := "string", value := LiteralValue.raw (GoValue.vstr "a")
    rawValue := "a", inArray := true, pos := (0, 0) }

/-- A numeric literal whose magnitude exceeds float64 precision, sent as text
(the external tool's numeric-precision workaround). -/
def numLitElem : ParserOutputElement :=
  { symbolType := Literal, symbolSubtype := "Numeric"
    data := GoValue.vstr "123456789012345678901234"
    pos := (5, 1), extra := [("raw", GoValue.vstr "123456789012345678901234n")] }

/-- The parsed literal produced from `numLitElem`: the value became the exact
big integer. -/
def numLit : ParsedLiteral :=
  { typ := "Numeric", goType := "big.Int"
    value := LiteralValue.bigInt 123456789012345678901234
    rawValue := "123456789012345678901234n", inArray := false, pos := (5, 1) }

end Parsing

namespace Worker

/-- `pkgecosystem.RunPhase` (declared outside `src/`): a string-typed phase
name; its Go zero value is the empty string. -/
abbrev RunPhase := String

/-- `analysis.Status` (declared outside `src/`): a string-typed completion
status; its Go zero value is the empty string. -/
abbrev Status := String

/-- Infrastructure errors returned by the sandbox collaborator, kept opaque. -/
abbrev InfraErr := String

/-- `analysis.StatusCompleted`. -/
def statusCompleted : Status := "completed"

/-- `dynamicanalysis.StraceSummary` (declared outside `src/`): a syscall
activity summary carrying a completion status; the summary body is opaque to
the orchestrator. -/
structure StraceSummary where
  status : Status
  syscallInfo : List String
deriving DecidableEq

/-- One entry of `dynamicanalysis.FileWrites`: a written path and its byte
counts (modelled from the spec's "paths and byte counts"). -/
structure FileWriteRecord where
  path : String
  bytesWritten : Nat
deriving DecidableEq

/-- `dynamicanalysis.FileWrites`. -/
abbrev FileWrites := List FileWriteRecord

/-- The result of one `dynamicanalysis.Run` call: the per-phase dynamic
analysis data. -/
structure DynamicResult where
  straceSummary : StraceSummary
  fileWrites : FileWrites
deriving DecidableEq

/-- `worker.DynamicAnalysisResults`: the two phase-keyed Go maps, modelled as
association lists with Go-map insert-or-replace semantics. -/
structure DynamicAnalysisResults where
  straceSummary : List (RunPhase × StraceSummary)
  fileWrites : List (RunPhase × FileWrites)
deriving DecidableEq

/-- Go map assignment `m[k] = v`: replaces the binding if the key is present,
otherwise appends it. -/
def mapInsert {V : Type} (m : List (RunPhase × V)) (k : RunPhase) (v : V) :
    List (RunPhase × V) :=
  if m.any (fun kv => kv.1 = k) then
    m.map (fun kv => if kv.1 = k then (k, v) else kv)
  else m ++ [(k, v)]

/-- The two parallel map assignments
`results.StraceSummary[phase] = &result.StraceSummary` and
`results.FileWrites[phase] = &result.FileWrites`. -/
def insertResult (res : DynamicAnalysisResults) (phase : RunPhase)
    (r : DynamicResult) : DynamicAnalysisResults :=
  { straceSummary := mapInsert res.straceSummary phase r.straceSummary
    fileWrites := mapInsert res.fileWrites phase r.fileWrites }

/-- The phase loop of `RunDynamicAnalysis`, carrying the mutable
`results`, `lastRunPhase`, `lastStatus` and `lastError` variables. `run` is
the sandbox collaborator `phase ↦ dynamicanalysis.Run(sb, pkg.Command(phase))`.
An infrastructure error clears the status, records the error and breaks
without recording the result; a non-completed status records the result and
breaks with a nil error. -/
def runPhasesLoop (run : RunPhase → Except InfraErr DynamicResult) :
    List RunPhase → DynamicAnalysisResults → RunPhase → Status → Option InfraErr →
    DynamicAnalysisResults × RunPhase × Status × Option InfraErr
  | [], results, lastRunPhase, lastStatus, lastError =>
    (results, lastRunPhase, lastStatus, lastError)
  | phase :: rest, results, _, _, lastError =>
    match run phase with
    | Except.error e => (results, phase, "", some e)
    | Except.ok result =>
      let results' := insertResult results phase result
      if result.straceSummary.status ≠ statusCompleted then
        (results', phase, result.straceSummary.status, lastError)
      else
        runPhasesLoop run rest results' phase result.straceSummary.status lastError

/-- The freshly allocated empty `DynamicAnalysisResults`. -/
def emptyResults : DynamicAnalysisResults := { straceSummary := [], fileWrites := [] }

/-- `worker.RunDynamicAnalysis`: walks the package's ordered phases
(`pkg.Manager().RunPhases()`, passed as `phases`) and returns
`(results, lastRunPhase, lastStatus, lastError)`. The trailing logging calls
have no effect on the returned values. -/
def RunDynamicAnalysis (run : RunPhase → Except InfraErr DynamicResult)
    (phases : List RunPhase) :
    DynamicAnalysisResults × RunPhase × Status × Option InfraErr :=
  runPhasesLoop run phases emptyResults "" "" none

/-- Folding the recorded outcomes of a list of phases into the aggregate
(phases whose sandbox invocation fails contribute nothing). Used to state
what the aggregate should contain. -/
def insertOutcomes (run : RunPhase → Except InfraErr DynamicResult) :
    DynamicAnalysisResults → List RunPhase → DynamicAnalysisResults
  | res, [] => res
  | res, p :: rest =>
    match run p with
    | Except.ok r => insertOutcomes run (insertResult res p r) rest
    | Except.error _ => insertOutcomes run res rest

/-- Statement-side description (following the spec's words, to be compared
with the loop's output): the aggregate holding exactly the outcomes of the
given recorded phases, in order. -/
def expectedRecorded (run : RunPhase → Except InfraErr DynamicResult)
    (phases : List RunPhase) : DynamicAnalysisResults :=
  insertOutcomes run emptyResults phases

/-- A phase on which the sandbox collaborator succeeds with a completed
status. -/
def phaseCompletes (run : RunPhase → Except InfraErr DynamicResult)
    (p : RunPhase) : Prop :=
  ∃ r, run p = Except.ok r ∧ r.straceSummary.status = statusCompleted

/-- Sample sandbox outcome that completes (used to instantiate theorems). -/
def resultA : DynamicResult :=
  { straceSummary := { status := "completed", syscallInfo := ["open"] }
    fileWrites := [{ path := "/tmp/a", bytesWritten := 3 }] }

/-- Sample sandbox outcome with a non-completed status. -/
def resultB : DynamicResult :=
  { straceSummary := { status := "killed", syscallInfo := [] }
    fileWrites := [] }

/-- Sample sandbox collaborator: completes on "install", infrastructure
failure on every other phase. -/
def run3 : RunPhase → Except InfraErr DynamicResult :=
  fun p => if p = "install" then Except.ok resultA else Except.error "sandbox failure"

/-- Sample sandbox collaborator: completes on "install", returns a
non-completed outcome on every other phase. -/
def run4 : RunPhase → Except InfraErr DynamicResult :=
  fun p => if p = "install" then Except.ok resultA else Except.ok resultB

end Worker

end PackageAnalysis

namespace PackageAnalysis

namespace Worker

theorem runPhasesLoop_last_irrelevant (run : RunPhase → Except InfraErr DynamicResult)
    (p : RunPhase) (rest : List RunPhase) (res : DynamicAnalysisResults)
    (lp lp2 : RunPhase) (ls ls2 : Status) (le : Option InfraErr) :
    runPhasesLoop run (p :: rest) res lp ls le =
    runPhasesLoop run (p :: rest) res lp2 ls2 le := rfl

theorem runPhasesLoop_append_completed (run : RunPhase → Except InfraErr DynamicResult)
    (before : List RunPhase) :
    ∀ (q : RunPhase) (rest : List RunPhase) (res : DynamicAnalysisResults)
      (lp : RunPhase) (ls : Status) (le : Option InfraErr),
    (∀ p ∈ before, phaseCompletes run p) →
    runPhasesLoop run (before ++ q :: rest) res lp ls le =
      runPhasesLoop run (q :: rest) (insertOutcomes run res before) lp ls le := by
  induction before with
  | nil => intro q rest res lp ls le _; rfl
  | cons p t ih =>
    intro q rest res lp ls le h
    obtain ⟨r, hr, hst⟩ := h p (by simp)
    have h' : ∀ p' ∈ t, phaseCompletes run p' := fun p' hp' => h p' (by simp [hp'])
    have step : runPhasesLoop run ((p :: t) ++ q :: rest) res lp ls le =
        runPhasesLoop run (t ++ q :: rest) (insertResult res p r) p
          r.straceSummary.status le := by
      simp [runPhasesLoop, hr, hst]
    rw [step, ih q rest (insertResult res p r) p r.straceSummary.status le h']
    have houtc : insertOutcomes run res (p :: t) =
        insertOutcomes run (insertResult res p r) t := by
      simp [insertOutcomes, hr]
    rw [houtc]
    exact runPhasesLoop_last_irrelevant run q rest _ p lp r.straceSummary.status ls le

theorem insertOutcomes_append (run : RunPhase → Except InfraErr DynamicResult)
    (l1 l2 : List RunPhase) :
    ∀ res, insertOutcomes run res (l1 ++ l2) =
      insertOutcomes run (insertOutcomes run res l1) l2 := by
  induction l1 with
  | nil => intro res; rfl
  | cons p t ih =>
    intro res
    cases hr : run p with
    | ok r => simp [insertOutcomes, hr, ih]
    | error e => simp [insertOutcomes, hr, ih]

theorem mapInsert_keys_of_not_mem {V : Type} (m : List (RunPhase × V)) (k : RunPhase)
    (v : V) (h : k ∉ m.map Prod.fst) :
    (mapInsert m k v).map Prod.fst = m.map Prod.fst ++ [k] := by
  have hany : m.any (fun kv => kv.1 = k) = false := by
    simp only [List.any_eq_false, decide_eq_true_eq]
    intro kv hkv hk
    exact h (List.mem_map.mpr ⟨kv, hkv, hk⟩)
  simp [mapInsert, hany]

theorem insertOutcomes_keys (run : RunPhase → Except InfraErr DynamicResult) :
    ∀ (l : List RunPhase) (res : DynamicAnalysisResults),
    (∀ p ∈ l, ∃ r, run p = Except.ok r) → l.Nodup →
    (∀ p ∈ l, p ∉ res.straceSummary.map Prod.fst) →
    (∀ p ∈ l, p ∉ res.fileWrites.map Prod.fst) →
    (insertOutcomes run res l).straceSummary.map Prod.fst =
      res.straceSummary.map Prod.fst ++ l ∧
    (insertOutcomes run res l).fileWrites.map Prod.fst =
      res.fileWrites.map Prod.fst ++ l := by
  intro l
  induction l with
  | nil => intro res _ _ _ _; simp [insertOutcomes]
  | cons p t ih =>
    intro res hok hnd hs hf
    obtain ⟨r, hr⟩ := hok p (by simp)
    have hres : insertOutcomes run res (p :: t) =
        insertOutcomes run (insertResult res p r) t := by
      simp [insertOutcomes, hr]
    have hpt : p ∉ t := (List.nodup_cons.mp hnd).1
    have hnd' : t.Nodup := (List.nodup_cons.mp hnd).2
    have hks : (insertResult res p r).straceSummary.map Prod.fst =
        res.straceSummary.map Prod.fst ++ [p] :=
      mapInsert_keys_of_not_mem _ _ _ (hs p (by simp))
    have hkf : (insertResult res p r).fileWrites.map Prod.fst =
        res.fileWrites.map Prod.fst ++ [p] :=
      mapInsert_keys_of_not_mem _ _ _ (hf p (by simp))
    have hs' : ∀ q ∈ t, q ∉ (insertResult res p r).straceSummary.map Prod.fst := by
      intro q hq
      rw [hks]
      simp only [List.mem_append, List.mem_singleton]
      rintro (h1 | h2)
      · exact hs q (by simp [hq]) h1
      · exact hpt (h2 ▸ hq)
    have hf' : ∀ q ∈ t, q ∉ (insertResult res p r).fileWrites.map Prod.fst := by
      intro q hq
      rw [hkf]
      simp only [List.mem_append, List.mem_singleton]
      rintro (h1 | h2)
      · exact hf q (by simp [hq]) h1
      · exact hpt (h2 ▸ hq)
    obtain ⟨ih1, ih2⟩ := ih (insertResult res p r)
      (fun q hq => hok q (by simp [hq])) hnd' hs' hf'
    refine ⟨?_, ?_⟩
    · rw [hres, ih1, hks]; simp
    · rw [hres, ih2, hkf]; simp

theorem mapInsert_keys_pair {V W : Type} (m : List (RunPhase × V))
    (m2 : List (RunPhase × W)) (k : RunPhase) (v : V) (w : W)
    (h : m.map Prod.fst = m2.map Prod.fst) :
    (mapInsert m k v).map Prod.fst = (mapInsert m2 k w).map Prod.fst := by
  have hmap : ∀ {A : Type} (mm : List (RunPhase × A)),
      mm.any (fun kv => kv.1 = k) = (mm.map Prod.fst).any (fun x => x = k) := by
    intro A mm
    induction mm with
    | nil => rfl
    | cons kv rest ihm => simp [ihm]
  have hany : (m.any (fun kv => kv.1 = k)) = (m2.any (fun kv => kv.1 = k)) := by
    rw [hmap m, hmap m2, h]
  have key : ∀ {A : Type} (u : A) (mm : List (RunPhase × A)),
      (mm.map (fun kv => if kv.1 = k then (k, u) else kv)).map Prod.fst =
      (mm.map Prod.fst).map (fun x => if x = k then k else x) := by
    intro A u mm
    induction mm with
    | nil => rfl
    | cons kv rest ihm =>
      simp only [List.map_cons, ihm, List.cons.injEq, and_true]
      by_cases hk : kv.1 = k
      · simp [hk]
      · simp [hk]
  by_cases hc : m.any (fun kv => kv.1 = k) = true
  · unfold mapInsert
    rw [if_pos hc, if_pos (hany ▸ hc)]
    rw [key v m, key w m2, h]
  · unfold mapInsert
    rw [if_neg hc, if_neg (fun hx => hc (hany ▸ hx))]
    simp [h]

theorem runPhasesLoop_keys (run : RunPhase → Except InfraErr DynamicResult) :
    ∀ (phases : List RunPhase) (res : DynamicAnalysisResults)
      (lp : RunPhase) (ls : Status) (le : Option InfraErr),
    res.straceSummary.map Prod.fst = res.fileWrites.map Prod.fst →
    (runPhasesLoop run phases res lp ls le).1.straceSummary.map Prod.fst =
    (runPhasesLoop run phases res lp ls le).1.fileWrites.map Prod.fst := by
  intro phases
  induction phases with
  | nil => intro res lp ls le h; simpa [runPhasesLoop] using h
  | cons p rest ih =>
    intro res lp ls le h
    cases hr : run p with
    | error e => simpa [runPhasesLoop, hr] using h
    | ok r =>
      have h' : (insertResult res p r).straceSummary.map Prod.fst =
          (insertResult res p r).fileWrites.map Prod.fst :=
        mapInsert_keys_pair _ _ _ _ _ h
      by_cases hst : r.straceSummary.status = statusCompleted
      · have step : runPhasesLoop run (p :: rest) res lp ls le =
            runPhasesLoop run rest (insertResult res p r) p
              r.straceSummary.status le := by
          simp [runPhasesLoop, hr, hst]
        rw [step]
        exact ih _ _ _ _ h'
      · have step : runPhasesLoop run (p :: rest) res lp ls le =
            (insertResult res p r, p, r.straceSummary.status, le) := by
          simp [runPhasesLoop, hr, hst]
        rw [step]
        exact h'

/-- Claim C3: if every phase before P completes and invoking the sandbox for
phase P itself fails with an infrastructure error, then `RunDynamicAnalysis`
aggregates exactly the outcomes of the phases before P (P's result is not
recorded), returns P as the last attempted phase, an empty completion status
and the non-nil error, and behaves as if no phase after P existed. -/
theorem c3_infrastructure_error_stops
    (run : RunPhase → Except InfraErr DynamicResult)
    (before after : List RunPhase) (P : RunPhase) (e : InfraErr)
    (hbefore : ∀ p ∈ before, phaseCompletes run p)
    (hP : run P = Except.error e)
    (hnd : before.Nodup) :
    RunDynamicAnalysis run (before ++ P :: after) =
      (expectedRecorded run before, P, "", some e) ∧
    (expectedRecorded run before).straceSummary.map Prod.fst = before ∧
    (expectedRecorded run before).fileWrites.map Prod.fst = before ∧
    RunDynamicAnalysis run (before ++ P :: after) =
      RunDynamicAnalysis run (before ++ [P]) := by
  have key : ∀ after2 : List RunPhase,
      RunDynamicAnalysis run (before ++ P :: after2) =
      (expectedRecorded run before, P, "", some e) := by
    intro after2
    unfold RunDynamicAnalysis
    rw [runPhasesLoop_append_completed run before P after2 emptyResults "" "" none hbefore]
    simp [runPhasesLoop, hP, expectedRecorded]
  have hok : ∀ p ∈ before, ∃ r, run p = Except.ok r := by
    intro p hp
    obtain ⟨r, hr, _⟩ := hbefore p hp
    exact ⟨r, hr⟩
  have hkeys := insertOutcomes_keys run before emptyResults hok hnd
    (by simp [emptyResults]) (by simp [emptyResults])
  refine ⟨key after, ?_, ?_, (key after).trans (key []).symm⟩
  · simpa [expectedRecorded, emptyResults] using hkeys.1
  · simpa [expectedRecorded, emptyResults] using hkeys.2

/-- Witness for claim C3 at a concrete phase list and sandbox collaborator. -/
theorem c3_witness :
    (∀ p ∈ ["install"], phaseCompletes run3 p) ∧
    run3 "run" = Except.error "sandbox failure" ∧
    ["install"].Nodup ∧
    RunDynamicAnalysis run3 (["install"] ++ "run" :: ["extra"]) =
      (expectedRecorded run3 ["install"], "run", "", some "sandbox failure") := by
  have hb : ∀ p ∈ ["install"], phaseCompletes run3 p := by
    intro p hp
    have hp' : p = "install" := by simpa using hp
    subst hp'
    exact ⟨resultA, rfl, rfl⟩
  refine ⟨hb, rfl, by simp, ?_⟩
  exact (c3_infrastructure_error_stops run3 ["install"] ["extra"] "run"
    "sandbox failure" hb rfl (by simp)).1

/-- Claim C4: if every phase before P completes and P's sandbox invocation
succeeds with a status other than completed, then `RunDynamicAnalysis`
records P's outcome along with all earlier outcomes, returns P as the last
phase, returns P's status and a nil error, and behaves as if no phase after
P existed. -/
theorem c4_noncompletion_recorded_and_stops
    (run : RunPhase → Except InfraErr DynamicResult)
    (before after : List RunPhase) (P : RunPhase) (r : DynamicResult)
    (hbefore : ∀ p ∈ before, phaseCompletes run p)
    (hP : run P = Except.ok r)
    (hst : r.straceSummary.status ≠ statusCompleted)
    (hnd : (before ++ [P]).Nodup) :
    RunDynamicAnalysis run (before ++ P :: after) =
      (expectedRecorded run (before ++ [P]), P, r.straceSummary.status, none) ∧
    (expectedRecorded run (before ++ [P])).straceSummary.map Prod.fst = before ++ [P] ∧
    (expectedRecorded run (before ++ [P])).fileWrites.map Prod.fst = before ++ [P] ∧
    RunDynamicAnalysis run (before ++ P :: after) =
      RunDynamicAnalysis run (before ++ [P]) := by
  have hexp : expectedRecorded run (before ++ [P]) =
      insertResult (expectedRecorded run before) P r := by
    rw [expectedRecorded, insertOutcomes_append]
    simp [insertOutcomes, hP, expectedRecorded]
  have key : ∀ after2 : List RunPhase,
      RunDynamicAnalysis run (before ++ P :: after2) =
      (expectedRecorded run (before ++ [P]), P, r.straceSummary.status, none) := by
    intro after2
    unfold RunDynamicAnalysis
    rw [runPhasesLoop_append_completed run before P after2 emptyResults "" "" none hbefore]
    rw [hexp]
    simp [runPhasesLoop, hP, hst, expectedRecorded]
  have hok : ∀ p ∈ before ++ [P], ∃ r', run p = Except.ok r' := by
    intro p hp
    rcases List.mem_append.mp hp with h1 | h2
    · obtain ⟨r', hr', _⟩ := hbefore p h1
      exact ⟨r', hr'⟩
    · have hp' : p = P := by simpa using h2
      subst hp'
      exact ⟨r, hP⟩
  have hkeys := insertOutcomes_keys run (before ++ [P]) emptyResults hok hnd
    (by simp [emptyResults]) (by simp [emptyResults])
  refine ⟨key after, ?_, ?_, (key after).trans (key []).symm⟩
  · simpa [expectedRecorded, emptyResults] using hkeys.1
  · simpa [expectedRecorded, emptyResults] using hkeys.2

/-- Witness for claim C4 at a concrete phase list and sandbox collaborator. -/
theorem c4_witness :
    (∀ p ∈ ["install"], phaseCompletes run4 p) ∧
    run4 "run" = Except.ok resultB ∧
    resultB.straceSummary.status ≠ statusCompleted ∧
    RunDynamicAnalysis run4 (["install"] ++ "run" :: ["extra"]) =
      (expectedRecorded run4 ["install", "run"], "run", "killed", none) := by
  have hb : ∀ p ∈ ["install"], phaseCompletes run4 p := by
    intro p hp
    have hp' : p = "install" := by simpa using hp
    subst hp'
    exact ⟨resultA, rfl, rfl⟩
  refine ⟨hb, rfl, by simp [resultB, statusCompleted], ?_⟩
  exact (c4_noncompletion_recorded_and_stops run4 ["install"] ["extra"] "run"
    resultB hb rfl (by simp [resultB, statusCompleted]) (by simp)).1

/-- Claim C9: after every `RunDynamicAnalysis` call, the strace-summary map
and the file-writes map of the returned results have exactly the same keys,
in the same order, since both entries are inserted together per phase. -/
theorem c9_strace_filewrites_same_keys
    (run : RunPhase → Except InfraErr DynamicResult) (phases : List RunPhase) :
    (RunDynamicAnalysis run phases).1.straceSummary.map Prod.fst =
    (RunDynamicAnalysis run phases).1.fileWrites.map Prod.fst :=
  runPhasesLoop_keys run phases emptyResults "" "" none rfl

/-- Claim C10: on an empty phase sequence, `RunDynamicAnalysis` returns empty
strace-summary and file-writes maps, the zero value of the run-phase type as
the last phase, an empty completion status, and a nil error. -/
theorem c10_empty_phase_sequence (run : RunPhase → Except InfraErr DynamicResult) :
    RunDynamicAnalysis run [] =
      ({ straceSummary := [], fileWrites := [] }, "", "", none) := rfl

end Worker

namespace Parsing

/-- Claim C2: on the sentinel syntax-error exit code (33), `parseJS` returns
the invalid-input result (validity false, empty identifier/literal/comment
sequences), an empty output string and a nil error, regardless of whatever
partial or garbage standard output and standard error the parser produced. -/
theorem c2_sentinel_syntax_error
    (decode : String → Except String (List ParserOutputElement))
    (check : String → IdentifierType) (stdout stderr : String) :
    parseJS decode check (ProcessResult.exitError syntaxErrorExitCode stdout stderr) =
      some (InvalidInput, "", none) ∧
    InvalidInput.validInput = false ∧
    InvalidInput.identifiers = [] ∧
    InvalidInput.literals = [] ∧
    InvalidInput.comments = [] :=
  ⟨rfl, rfl, rfl, rfl, rfl⟩

/-- Evidence for claim C1 (a code bug): a decoded batch holding a well-shaped
identifier record and one whose payload is not text makes `parseJS` panic
(the unchecked `element.Data.(string)` assertion), aborting the whole batch
(`none`, no per-record recoverable error); the well-shaped record alone is
decoded normally. -/
theorem c1_payload_shape_violation_aborts_batch :
    parseJS (fun _ => Except.ok [goodIdentElem, badIdentElem]) check0
        (ProcessResult.success "out") = none ∧
    parseJS (fun _ => Except.ok [goodIdentElem]) check0
        (ProcessResult.success "out") =
      some ({ validInput := true
              identifiers := [{ typ := IdentifierType.variableDecl, name := "x", pos := (1, 1) }]
              literals := [], comments := [] }, "out", none) :=
  ⟨rfl, rfl⟩

/-- The numeric fixup only rewrites the value and host-type fields; the
in-array flag is untouched. -/
theorem numericFixup_inArray (lit : ParsedLiteral) :
    (numericFixup lit).inArray = lit.inArray := by
  unfold numericFixup
  split
  · cases lit.value with
    | raw v =>
      cases v with
      | vstr s => cases h : bigIntSetString s <;> simp [h]
      | vnull => rfl
      | vbool b => rfl
      | vnum t => rfl
      | varr l => rfl
      | vobj l => rfl
    | bigInt n => rfl
  · rfl

/-- The Go comparison with the boolean constant is true exactly on a decoded
JSON `true`. -/
theorem isLiterallyTrue_iff (o : Option GoValue) :
    isLiterallyTrue o = true ↔ o = some (GoValue.vbool true) := by
  cases o with
  | none => simp [isLiterallyTrue]
  | some v =>
    cases v with
    | vbool b => cases b <;> simp [isLiterallyTrue]
    | vnull => simp [isLiterallyTrue]
    | vnum t => simp [isLiterallyTrue]
    | vstr s => simp [isLiterallyTrue]
    | varr l => simp [isLiterallyTrue]
    | vobj l => simp [isLiterallyTrue]

/-- Claim C7: for every literal record the adapter decodes, the InArray flag
is true exactly when the extra-attributes map binds "array" to the literal
boolean true; a missing "array" key or any other value yields false. -/
theorem c7_in_array_flag (e : ParserOutputElement) (lit : ParsedLiteral)
    (hconv : convertLiteral e = some lit) :
    lit.inArray = true ↔ mapLookup e.extra "array" = some (GoValue.vbool true) := by
  unfold convertLiteral at hconv
  split at hconv
  · rw [Option.some.injEq] at hconv
    subst hconv
    rw [numericFixup_inArray]
    exact isLiterallyTrue_iff _
  · exact absurd hconv (by simp)

/-- Witness for claim C7 at a concrete literal record with `array: true`. -/
theorem c7_witness :
    convertLiteral arrLitElem = some arrLit ∧
    mapLookup arrLitElem.extra "array" = some (GoValue.vbool true) ∧
    arrLit.inArray = true := by
  refine ⟨rfl, rfl, ?_⟩
  exact (c7_in_array_flag arrLitElem arrLit rfl).mpr rfl

/-- Claim C8: the literal-decoding branch asserts unconditionally that the
extra-attributes map binds "raw" to a string: it panics (`none`) exactly when
no such binding exists, and decodes the record when one does. -/
theorem c8_raw_attribute_assertion (check : String → IdentifierType)
    (acc : ParserOutput) (e : ParserOutputElement)
    (hlit : e.symbolType = Literal) :
    (processElement check acc e = none ↔
      ∀ s, mapLookup e.extra "raw" ≠ some (GoValue.vstr s)) ∧
    (∀ s, mapLookup e.extra "raw" = some (GoValue.vstr s) →
      ∃ lit, processElement check acc e =
        some { acc with literals := acc.literals ++ [lit] }) := by
  have hproc : processElement check acc e =
      (convertLiteral e).map fun lit => { acc with literals := acc.literals ++ [lit] } := by
    unfold processElement
    rw [hlit, if_neg (by decide : ¬(Literal = Identifier)), if_pos rfl]
  have hconv : convertLiteral e = none ↔
      ∀ s, mapLookup e.extra "raw" ≠ some (GoValue.vstr s) := by
    unfold convertLiteral
    cases hlk : mapLookup e.extra "raw" with
    | none => simp
    | some v =>
      cases v with
      | vstr s =>
        constructor
        · intro h; exact absurd h (by simp)
        · intro h; exact absurd rfl (h s)
      | vnull => simp
      | vbool b => simp
      | vnum t => simp
      | varr l => simp
      | vobj l => simp
  constructor
  · rw [hproc, Option.map_eq_none']
    exact hconv
  · intro s hs
    have hc : convertLiteral e = some (numericFixup
        { typ := e.symbolSubtype
          goType := goTypeOf e.data
          value := LiteralValue.raw e.data
          rawValue := s
          inArray := isLiterallyTrue (mapLookup e.extra "array")
          pos := e.pos }) := by
      unfold convertLiteral
      rw [hs]
    exact ⟨numericFixup
      { typ := e.symbolSubtype
        goType := goTypeOf e.data
        value := LiteralValue.raw e.data
        rawValue := s
        inArray := isLiterallyTrue (mapLookup e.extra "array")
        pos := e.pos }, by rw [hproc, hc]; rfl⟩

/-- Witness for claim C8: a literal record without a "raw" attribute panics. -/
theorem c8_witness :
    badLitElem.symbolType = Literal ∧
    processElement check0 emptyOutput badLitElem = none := by
  refine ⟨rfl, ?_⟩
  exact (c8_raw_attribute_assertion check0 emptyOutput badLitElem rfl).1.mpr
    (by intro s; simp [badLitElem, mapLookup])

/-- Every identifier a single conversion step adds was either already present
or carries a classification that is neither other nor unknown. -/
theorem processElement_identifiers_inv (check : String → IdentifierType)
    (acc : ParserOutput) (e : ParserOutputElement) (out : ParserOutput)
    (h : processElement check acc e = some out) :
    ∀ i ∈ out.identifiers, i ∈ acc.identifiers ∨
      (i.typ ≠ IdentifierType.other ∧ i.typ ≠ IdentifierType.unknown) := by
  unfold processElement at h
  split at h
  · split at h
    · rw [Option.some.injEq] at h
      subst h
      exact fun i hi => Or.inl hi
    · rename_i hguard
      split at h
      · rw [Option.some.injEq] at h
        subst h
        intro i hi
        rcases List.mem_append.mp hi with h1 | h2
        · exact Or.inl h1
        · rw [List.mem_singleton] at h2
          subst h2
          rw [not_or] at hguard
          exact Or.inr ⟨hguard.1, hguard.2⟩
      · exact absurd h (by simp)
  · split at h
    · rcases Option.map_eq_some'.mp h with ⟨lit, _, hout⟩
      subst hout
      exact fun i hi => Or.inl hi
    · split at h
      · split at h
        · rw [Option.some.injEq] at h
          subst h
          exact fun i hi => Or.inl hi
        · exact absurd h (by simp)
      · split at h
        · rw [Option.some.injEq] at h
          subst h
          exact fun i hi => Or.inl hi
        · rw [Option.some.injEq] at h
          subst h
          exact fun i hi => Or.inl hi

/-- The conversion loop preserves the no-other/no-unknown invariant on the
identifier sequence. -/
theorem convertStorage_identifiers_inv (check : String → IdentifierType) :
    ∀ (storage : List ParserOutputElement) (acc out : ParserOutput),
    convertStorage check storage acc = some out →
    (∀ i ∈ acc.identifiers, i.typ ≠ IdentifierType.other ∧ i.typ ≠ IdentifierType.unknown) →
    ∀ i ∈ out.identifiers, i.typ ≠ IdentifierType.other ∧ i.typ ≠ IdentifierType.unknown := by
  intro storage
  induction storage with
  | nil =>
    intro acc out h hacc
    simp only [convertStorage, Option.some.injEq] at h
    subst h
    exact hacc
  | cons e rest ih =>
    intro acc out h hacc
    simp only [convertStorage] at h
    cases hpe : processElement check acc e with
    | none => rw [hpe] at h; exact absurd h (by simp)
    | some acc' =>
      rw [hpe] at h
      refine ih acc' out h ?_
      intro i hi
      rcases processElement_identifiers_inv check acc e acc' hpe i hi with h1 | h2
      · exact hacc i h1
      · exact h2

/-- Any successful `parseJS` return either carries an empty identifier
sequence (error paths, invalid input) or comes out of the conversion loop. -/
theorem parseJS_out_cases (decode : String → Except String (List ParserOutputElement))
    (check : String → IdentifierType) (proc : ProcessResult)
    (out : ParserOutput) (raw : String) (err : Option GoErr)
    (h : parseJS decode check proc = some (out, raw, err)) :
    out.identifiers = [] ∨
    ∃ storage, convertStorage check storage { emptyOutput with validInput := true } =
      some out := by
  cases proc with
  | success so =>
    simp only [parseJS, runParser] at h
    cases hd : decode so with
    | error e2 =>
      rw [hd] at h
      simp only [Option.some.injEq, Prod.mk.injEq] at h
      left
      rw [← h.1]
      rfl
    | ok storage =>
      rw [hd] at h
      rcases Option.map_eq_some'.mp h with ⟨res, hres, heq⟩
      rw [Prod.mk.injEq] at heq
      right
      exact ⟨storage, heq.1 ▸ hres⟩
  | exitError code so se =>
    simp only [parseJS, runParser] at h
    by_cases hc : code = syntaxErrorExitCode
    · rw [if_pos hc] at h
      simp only [Option.some.injEq, Prod.mk.injEq] at h
      left
      rw [← h.1]
      rfl
    · rw [if_neg hc] at h
      simp only [Option.some.injEq, Prod.mk.injEq] at h
      left
      rw [← h.1]
      rfl
  | otherFailure m =>
    simp only [parseJS, runParser] at h
    simp only [Option.some.injEq, Prod.mk.injEq] at h
    left
    rw [← h.1]
    rfl

/-- Claim C6: identifier records whose subtype classifies as other or unknown
are dropped silently (the accumulated result is returned unchanged), records
of every other classification with a text payload are appended, and no
identifier classified other or unknown ever appears in a `parseJS` result —
for every classification table. -/
theorem c6_unknown_identifiers_dropped (check : String → IdentifierType) :
    (∀ (acc : ParserOutput) (e : ParserOutputElement),
      e.symbolType = Identifier →
      ((check e.symbolSubtype = IdentifierType.other ∨
        check e.symbolSubtype = IdentifierType.unknown) →
        processElement check acc e = some acc) ∧
      (check e.symbolSubtype ≠ IdentifierType.other →
       check e.symbolSubtype ≠ IdentifierType.unknown →
       ∀ nm, e.data = GoValue.vstr nm →
        processElement check acc e = some { acc with identifiers :=
          acc.identifiers ++
            [{ typ := check e.symbolSubtype, name := nm, pos := e.pos }] })) ∧
    (∀ (decode : String → Except String (List ParserOutputElement))
       (proc : ProcessResult) (out : ParserOutput) (raw : String) (err : Option GoErr),
      parseJS decode check proc = some (out, raw, err) →
      ∀ i ∈ out.identifiers,
        i.typ ≠ IdentifierType.other ∧ i.typ ≠ IdentifierType.unknown) := by
  constructor
  · intro acc e he
    constructor
    · intro hdrop
      simp [processElement, he, hdrop]
    · intro hno hnu nm hdata
      simp [processElement, he, hdata, hno, hnu]
  · intro decode proc out raw err h
    rcases parseJS_out_cases decode check proc out raw err h with h1 | ⟨storage, h2⟩
    · rw [h1]
      intro i hi
      exact absurd hi (List.not_mem_nil i)
    · exact convertStorage_identifiers_inv check storage _ out h2
        (fun i hi => absurd hi (List.not_mem_nil i))

/-- Witness for claim C6: a concrete kept identifier and a concrete dropped
one, through the sample classification table. -/
theorem c6_witness :
    goodIdentElem.symbolType = Identifier ∧
    check0 "Variable" ≠ IdentifierType.other ∧
    processElement check0 emptyOutput goodIdentElem =
      some { emptyOutput with identifiers :=
        [{ typ := IdentifierType.variableDecl, name := "x", pos := (1, 1) }] } := by
  refine ⟨rfl, by decide, ?_⟩
  have h := ((c6_unknown_identifiers_dropped check0).1 emptyOutput goodIdentElem rfl).2
    (by decide) (by decide) "x" rfl
  simpa [goodIdentElem, emptyOutput, check0] using h

/-- A digit run of plain decimal digits evaluates to its base-10 value. -/
theorem goDigitsAux_decimal :
    ∀ (l : List Char) (acc : Nat),
    (∀ c ∈ l, 48 ≤ c.toNat ∧ c.toNat ≤ 57) →
    goDigitsAux 10 acc l =
      some (l.foldl (fun a c => a * 10 + (c.toNat - 48)) acc) := by
  intro l
  induction l with
  | nil => intro acc _; rfl
  | cons c rest ih =>
    intro acc hd
    obtain ⟨h1, h2⟩ := hd c (List.mem_cons_self c rest)
    have hne : ¬(c = '_') := by
      intro hc
      subst hc
      have h95 : ('_').toNat = 95 := rfl
      omega
    have hdv : digitVal c = some (c.toNat - 48) := by
      unfold digitVal
      rw [if_pos ⟨h1, h2⟩]
    have hlt : c.toNat - 48 < 10 := by omega
    have step : goDigitsAux 10 acc (c :: rest) =
        goDigitsAux 10 (acc * 10 + (c.toNat - 48)) rest := by
      conv_lhs => unfold goDigitsAux
      rw [if_neg hne]
      simp only [hdv]
      rw [if_pos hlt]
    rw [step, ih _ (fun c' hc' => hd c' (List.mem_cons_of_mem _ hc'))]
    simp

/-- `big.Int.SetString` with base 0 parses a plain digit string with no
leading zero as a base-10 integer. -/
theorem bigIntSetString_decimal (s : String) (hne : s.data ≠ [])
    (hdig : ∀ c ∈ s.data, 48 ≤ c.toNat ∧ c.toNat ≤ 57)
    (h0 : ∀ c, s.data.head? = some c → c.toNat ≠ 48) :
    bigIntSetString s = some (Int.ofNat (decimalValue s)) := by
  cases hsd : s.data with
  | nil => exact absurd hsd hne
  | cons c rest =>
    obtain ⟨h1, h2⟩ := hdig c (by rw [hsd]; exact List.mem_cons_self c rest)
    have hc0 : c.toNat ≠ 48 := h0 c (by rw [hsd]; rfl)
    have hplus : ¬(c = '+') := by
      intro h; subst h
      have h43 : ('+').toNat = 43 := rfl
      omega
    have hminus : ¬(c = '-') := by
      intro h; subst h
      have h45 : ('-').toNat = 45 := rfl
      omega
    have hzero : ¬(c = '0') := by
      intro h; subst h
      exact hc0 rfl
    have hund : ¬(c = '_') := by
      intro h; subst h
      have h95 : ('_').toNat = 95 := rfl
      omega
    have hdv : digitVal c = some (c.toNat - 48) := by
      unfold digitVal
      rw [if_pos ⟨h1, h2⟩]
    have hlt : c.toNat - 48 < 10 := by omega
    have hrest : ∀ c' ∈ rest, 48 ≤ c'.toNat ∧ c'.toNat ≤ 57 :=
      fun c' hc' => hdig c' (by rw [hsd]; exact List.mem_cons_of_mem _ hc')
    have hgo : goUnsigned (c :: rest) =
        some ((c :: rest).foldl (fun a ch => a * 10 + (ch.toNat - 48)) 0) := by
      simp only [goUnsigned]
      rw [if_neg hzero]
      simp only [goDigitStart]
      rw [if_neg hund]
      simp only [hdv]
      rw [if_pos hlt]
      rw [goDigitsAux_decimal rest (c.toNat - 48) hrest]
      simp
    simp only [bigIntSetString, hsd]
    rw [if_neg hplus, if_neg hminus, hgo]
    simp [decimalValue, hsd]

/-- Claim C5: for a Numeric literal whose decoded value arrived as text, the
adapter parses the text with arbitrary-precision integer semantics — equal to
base-10 parsing for plain digit strings, prefix-selected base otherwise — and
stores the big integer on success, retains the text unchanged on failure; a
numeric payload that is not text is left as its native value, unchanged. -/
theorem c5_numeric_bigint_fixup (e : ParserOutputElement) (lit : ParsedLiteral)
    (hnum : e.symbolSubtype = "Numeric")
    (hconv : convertLiteral e = some lit) :
    (∀ s, e.data = GoValue.vstr s →
      (∀ n, bigIntSetString s = some n →
        lit.value = LiteralValue.bigInt n ∧ lit.goType = "big.Int") ∧
      (bigIntSetString s = none →
        lit.value = LiteralValue.raw (GoValue.vstr s) ∧ lit.goType = "string")) ∧
    ((∀ s, e.data ≠ GoValue.vstr s) →
      lit.value = LiteralValue.raw e.data ∧ lit.goType = goTypeOf e.data) ∧
    (∀ t : String, t.data ≠ [] →
      (∀ c ∈ t.data, 48 ≤ c.toNat ∧ c.toNat ≤ 57) →
      (∀ c, t.data.head? = some c → c.toNat ≠ 48) →
      bigIntSetString t = some (Int.ofNat (decimalValue t))) := by
  unfold convertLiteral at hconv
  split at hconv
  · rw [Option.some.injEq] at hconv
    subst hconv
    refine ⟨?_, ?_, fun t a b c => bigIntSetString_decimal t a b c⟩
    · intro s hs
      rw [hnum, hs]
      unfold numericFixup
      constructor
      · intro n hbig
        simp [goTypeOf, hbig]
      · intro hbig
        simp [goTypeOf, hbig]
    · intro hnostr
      have hgt : ¬(goTypeOf e.data = "string") := by
        cases hdata : e.data with
        | vstr s => exact absurd hdata (hnostr s)
        | vnull => decide
        | vbool b => simp only [goTypeOf]; decide
        | vnum tk => simp only [goTypeOf]; decide
        | varr l => simp only [goTypeOf]; decide
        | vobj l => simp only [goTypeOf]; decide
      unfold numericFixup
      rw [if_neg (fun hcond => hgt hcond.2)]
      exact ⟨rfl, rfl⟩
  · exact absurd hconv (by simp)

/-- Witness for claim C5: a 24-digit numeric literal sent as text becomes the
exact big integer. -/
theorem c5_witness :
    numLitElem.symbolSubtype = "Numeric" ∧
    convertLiteral numLitElem = some numLit ∧
    numLit.value = LiteralValue.bigInt 123456789012345678901234 := by
  have h := (c5_numeric_bigint_fixup numLitElem numLit rfl rfl).1
    "123456789012345678901234" rfl
  exact ⟨rfl, rfl, (h.1 123456789012345678901234 rfl).1⟩

end Parsing

end PackageAnalysis
